import Mathlib

/-!
Verification of the form-builder action layer (`src/actions/form.ts` and
`src/schemas/form.ts`) against its specification.

The persistent store (Prisma) is embedded as an explicit `Store` value: a
list of `Form` rows, a list of `FromSubmission` rows (the relation is
spelled `FromSubmission` in the source), and fresh-id counters.  The Clerk
identity provider is embedded as an `Option UserId` argument: `none`
means no authenticated user.  Each server action becomes a pure function
from its arguments, the current user and the store to an `Except` value;
actions that write return the updated store as part of the `ok` payload,
so an `error` result leaves the store untouched, exactly as a thrown
exception in the source does.
-/

namespace FormApp

abbrev UserId := String

/-- A `Form` row.  The Prisma schema file itself is not under `src/`;
    the fields and their defaults are modelled from the spec (section 3):
    id (integer pk), userId (immutable owner), name, optional description,
    content string, published flag (default false), visits and submissions
    counters (default 0), a unique shareURL token, and a creation
    timestamp (abstracted as a monotone counter). -/
structure Form where
  id : Nat
  userId : UserId
  name : String
  description : Option String
  content : String
  published : Bool
  visits : Nat
  submissions : Nat
  shareURL : String
  createdAt : Nat
  deriving Repr, DecidableEq

/-- A `FromSubmission` row (the relation name in the source code), linked
    to its form by `formId`. -/
structure FromSubmission where
  id : Nat
  formId : Nat
  content : String
  createdAt : Nat
  deriving Repr, DecidableEq

/-- The relational store: Form rows, FromSubmission rows, and the
    store-generated fresh primary keys. -/
structure Store where
  forms : List Form
  fromSubmissions : List FromSubmission
  nextId : Nat
  nextSubId : Nat
  deriving Repr, DecidableEq

/-- Store well-formedness: primary keys and shareURL tokens are unique
    across rows, and every existing id is below the fresh-id counter. -/
def Store.WF (st : Store) : Prop :=
  st.forms.Pairwise (fun a b => a.id ≠ b.id ∧ a.shareURL ≠ b.shareURL) ∧
  ∀ f ∈ st.forms, f.id < st.nextId

instance (st : Store) : Decidable st.WF := by
  unfold Store.WF; infer_instance

/-- Errors thrown by the action layer: `userNotFound` is the
    `UserNotFoundErr` class, `validation` the `"From is not valid"`
    error, `notFound` the store's record-not-found rejection of an
    `update` whose `where` clause matches no row. -/
inductive Err
  | userNotFound
  | validation
  | notFound
  deriving Repr, DecidableEq

/-- Type `formSchemaType` from `src/schemas/form.ts`: a name and an optional
    description. -/
structure FormSchemaType where
  name : String
  description : Option String
  deriving Repr, DecidableEq

/-- Validation `formSchema.safeParse` succeeds iff the name passes
    `z.string().min(4)`, i.e. has length at least 4; the description is
    an unconstrained optional string. -/
def formSchema (data : FormSchemaType) : Bool :=
  4 ≤ data.name.length

/-- Prisma `update`: find the unique row matching the `where` predicate,
    apply the data clause to it, and return the updated row together with
    the updated table; `none` models the record-not-found rejection.
    (On a list the first match is taken; under `Store.WF` at most one row
    matches any of the `where` clauses used by the actions.) -/
def updateFirst (p : Form → Bool) (upd : Form → Form) : List Form → Option (Form × List Form)
  | [] => none
  | f :: rest =>
    if p f then some (upd f, upd f :: rest)
    else
      match updateFirst p upd rest with
      | none => none
      | some (f', rest') => some (f', f :: rest')

/-- The result object of `GetFormStats`.  JavaScript numbers are
    embedded as rationals; the counters themselves are integers. -/
structure FormStats where
  visits : Nat
  submissions : Nat
  submissionRate : Rat
  bounceRate : Rat
  deriving Repr, DecidableEq

/-- Action `GetFormStats()`: requires a current user; aggregates (sums) visits
    and submissions over the user's forms; `submissionRate` is
    submissions/visits x 100 when visits > 0 and 0 otherwise;
    `bounceRate` is 100 - submissionRate. -/
def GetFormStats (user : Option UserId) (st : Store) : Except Err FormStats :=
  match user with
  | none => .error .userNotFound
  | some uid =>
    let owned := st.forms.filter (fun f => f.userId == uid)
    let visits := (owned.map Form.visits).sum
    let submissions := (owned.map Form.submissions).sum
    let submissionRate : Rat :=
      if visits > 0 then ((submissions : Rat) / (visits : Rat)) * 100 else 0
    let bounceRate : Rat := 100 - submissionRate
    .ok { visits := visits, submissions := submissions,
          submissionRate := submissionRate, bounceRate := bounceRate }

/-- Share-URL token for a fresh form.  Modelled from the spec: the store
    generates a globally unique token per form; the generator itself is
    in the Prisma schema, which is not under `src/`.  Injectivity of this
    stand-in preserves the spec's uniqueness guarantee. -/
def genShareURL (n : Nat) : String :=
  "share-" ++ toString n

/-- The fresh row inserted by `CreateForm`: store defaults of empty
    content, unpublished, zero counters, fresh id and shareURL. -/
def newForm (data : FormSchemaType) (uid : UserId) (st : Store) : Form :=
  { id := st.nextId, userId := uid, name := data.name,
    description := data.description, content := "",
    published := false, visits := 0, submissions := 0,
    shareURL := genShareURL st.nextId, createdAt := st.nextId }

/-- Action `CreateForm(data)`: validates via `formSchema.safeParse` first,
    then resolves the current user, then inserts a fresh Form owned by
    that user and returns the new id.  The source's `if (!form)` branch
    is dead in this embedding since the insert always produces a row. -/
def CreateForm (data : FormSchemaType) (user : Option UserId) (st : Store) :
    Except Err (Nat × Store) :=
  if !formSchema data then .error .validation
  else
    match user with
    | none => .error .userNotFound
    | some uid =>
      let form : Form := newForm data uid st
      .ok (form.id, { st with forms := form :: st.forms, nextId := st.nextId + 1 })

/-- Action `GetForm()`: requires a current user; returns the user's forms,
    newest first (rows are kept newest-first in this embedding, so the
    `orderBy createdAt desc` is the plain filter). -/
def GetForm (user : Option UserId) (st : Store) : Except Err (List Form) :=
  match user with
  | none => .error .userNotFound
  | some uid => .ok (st.forms.filter (fun f => f.userId == uid))

/-- Action `GetFormById(id)`: requires a current user; `findUnique` on
    (userId, id), returning `none` when no row matches. -/
def GetFormById (id : Nat) (user : Option UserId) (st : Store) :
    Except Err (Option Form) :=
  match user with
  | none => .error .userNotFound
  | some uid => .ok (st.forms.find? (fun f => f.userId == uid && f.id == id))

/-- Action `UpdateFormContent(id, jsonContent)`: requires a current user;
    `update` on (userId, id) setting `content`; record-not-found when no
    row matches. -/
def UpdateFormContent (id : Nat) (jsonContent : String) (user : Option UserId)
    (st : Store) : Except Err (Form × Store) :=
  match user with
  | none => .error .userNotFound
  | some uid =>
    match updateFirst (fun f => f.userId == uid && f.id == id)
        (fun f => { f with content := jsonContent }) st.forms with
    | none => .error .notFound
    | some (f, forms') => .ok (f, { st with forms := forms' })

/-- Action `PublishForm(id)`: requires a current user; `update` on (userId, id)
    setting `published := true`; record-not-found when no row matches. -/
def PublishForm (id : Nat) (user : Option UserId) (st : Store) :
    Except Err (Form × Store) :=
  match user with
  | none => .error .userNotFound
  | some uid =>
    match updateFirst (fun f => f.userId == uid && f.id == id)
        (fun f => { f with published := true }) st.forms with
    | none => .error .notFound
    | some (f, forms') => .ok (f, { st with forms := forms' })

/-- Action `GetFormContentByUrl(formUrl)`: public, no auth; `update` on
    shareURL alone (no published check) incrementing `visits` and
    selecting `content`; record-not-found when no row matches. -/
def GetFormContentByUrl (formUrl : String) (st : Store) :
    Except Err (String × Store) :=
  match updateFirst (fun f => f.shareURL == formUrl)
      (fun f => { f with visits := f.visits + 1 }) st.forms with
  | none => .error .notFound
  | some (f, forms') => .ok (f.content, { st with forms := forms' })

/-- Action `SubmitForm(formUrl, content)`: public, no auth; `update` on
    (shareURL, published = true) incrementing `submissions` and creating
    one linked `FromSubmission` row carrying `content`; record-not-found
    when no row matches (unknown URL or unpublished form). -/
def SubmitForm (formUrl : String) (content : String) (st : Store) :
    Except Err (Form × Store) :=
  match updateFirst (fun f => f.shareURL == formUrl && f.published)
      (fun f => { f with submissions := f.submissions + 1 }) st.forms with
  | none => .error .notFound
  | some (f, forms') =>
    let sub : FromSubmission :=
      { id := st.nextSubId, formId := f.id, content := content,
        createdAt := st.nextSubId }
    .ok (f, { st with forms := forms',
                      fromSubmissions := sub :: st.fromSubmissions,
                      nextSubId := st.nextSubId + 1 })

/-- Action `GetFormWithSubmissions(id)`: requires a current user; `findUnique`
    on (userId, id) with the linked `FromSubmission` rows included. -/
def GetFormWithSubmissions (id : Nat) (user : Option UserId) (st : Store) :
    Except Err (Option (Form × List FromSubmission)) :=
  match user with
  | none => .error .userNotFound
  | some uid =>
    .ok ((st.forms.find? (fun f => f.userId == uid && f.id == id)).map
      (fun f => (f, st.fromSubmissions.filter (fun s => s.formId == f.id))))

/-- The full action surface of the Form Service, as data, for stating
    properties quantified over every operation. -/
inductive Op
  | getFormStats
  | createForm (data : FormSchemaType)
  | getForm
  | getFormById (id : Nat)
  | updateFormContent (id : Nat) (content : String)
  | publishForm (id : Nat)
  | getFormContentByUrl (url : String)
  | submitForm (url : String) (content : String)
  | getFormWithSubmissions (id : Nat)

/-- The store an operation leaves behind: the updated store on success,
    the original store when the operation throws or does not write. -/
def runOp (user : Option UserId) (op : Op) (st : Store) : Store :=
  match op with
  | .getFormStats => st
  | .createForm d =>
    match CreateForm d user st with
    | .ok (_, st') => st'
    | .error _ => st
  | .getForm => st
  | .getFormById _ => st
  | .updateFormContent i c =>
    match UpdateFormContent i c user st with
    | .ok (_, st') => st'
    | .error _ => st
  | .publishForm i =>
    match PublishForm i user st with
    | .ok (_, st') => st'
    | .error _ => st
  | .getFormContentByUrl u =>
    match GetFormContentByUrl u st with
    | .ok (_, st') => st'
    | .error _ => st
  | .submitForm u c =>
    match SubmitForm u c st with
    | .ok (_, st') => st'
    | .error _ => st
  | .getFormWithSubmissions _ => st

/-! ### Concrete witness data -/

/-- A published form owned by `"alice"`, used to instantiate theorems. -/
def wForm : Form :=
  { id := 1, userId := "alice", name := "Survey", description := some "q1",
    content := "[]", published := true, visits := 2, submissions := 1,
    shareURL := "share-1", createdAt := 1 }

/-- An unpublished form owned by `"bob"`, used to instantiate theorems. -/
def wDraft : Form :=
  { id := 2, userId := "bob", name := "Draft", description := none,
    content := "", published := false, visits := 0, submissions := 0,
    shareURL := "share-2", createdAt := 2 }

/-- A small well-formed store holding both sample forms. -/
def wStore : Store :=
  { forms := [wForm, wDraft], fromSubmissions := [], nextId := 3, nextSubId := 0 }

/-! ### Helper lemmas about the embedded store primitives -/

/-- Distinct rows of a well-formed store have distinct ids and distinct
    shareURLs. -/
theorem Store.WF.distinct {st : Store} (h : st.WF) {f g : Form}
    (hf : f ∈ st.forms) (hg : g ∈ st.forms) (hne : f ≠ g) :
    f.id ≠ g.id ∧ f.shareURL ≠ g.shareURL :=
  List.Pairwise.forall (fun _ _ hab => ⟨hab.1.symm, hab.2.symm⟩) h.1 hf hg hne

/-- In a well-formed store, a row is determined by its id. -/
theorem Store.WF.id_inj {st : Store} (h : st.WF) {f g : Form}
    (hf : f ∈ st.forms) (hg : g ∈ st.forms) (hid : f.id = g.id) : f = g := by
  by_contra hne
  exact (h.distinct hf hg hne).1 hid

/-- In a well-formed store, a row is determined by its shareURL. -/
theorem Store.WF.shareURL_inj {st : Store} (h : st.WF) {f g : Form}
    (hf : f ∈ st.forms) (hg : g ∈ st.forms) (hurl : f.shareURL = g.shareURL) :
    f = g := by
  by_contra hne
  exact (h.distinct hf hg hne).2 hurl

/-- Function `updateFirst` misses exactly when no row matches the predicate. -/
theorem updateFirst_eq_none {p : Form → Bool} {upd : Form → Form} {l : List Form}
    (hall : ∀ x ∈ l, p x = false) : updateFirst p upd l = none := by
  induction l with
  | nil => rfl
  | cons a rest ih =>
    have ha : p a = false := hall a (List.mem_cons_self a rest)
    rw [updateFirst, ha]
    simp only [Bool.false_eq_true, if_false]
    rw [ih (fun x hx => hall x (List.mem_cons_of_mem a hx))]

/-- Structure of a successful `updateFirst`: the table splits around the
    first matching row, which is the one rewritten. -/
theorem updateFirst_eq_some {p : Form → Bool} {upd : Form → Form} {l l' : List Form}
    {f : Form} (h : updateFirst p upd l = some (f, l')) :
    ∃ l₁ f₀ l₂, l = l₁ ++ f₀ :: l₂ ∧ (∀ x ∈ l₁, p x = false) ∧
      p f₀ = true ∧ f = upd f₀ ∧ l' = l₁ ++ upd f₀ :: l₂ := by
  induction l generalizing l' with
  | nil => simp [updateFirst] at h
  | cons a rest ih =>
    rw [updateFirst] at h
    by_cases hpa : p a = true
    · rw [if_pos hpa] at h
      obtain ⟨h1, h2⟩ := Prod.mk.injEq .. ▸ Option.some.injEq .. ▸ h
      exact ⟨[], a, rest, rfl, by simp, hpa, h1.symm, h2.symm⟩
    · rw [if_neg hpa] at h
      cases hrec : updateFirst p upd rest with
      | none => rw [hrec] at h; exact absurd h (by simp)
      | some pr =>
        obtain ⟨f', rest'⟩ := pr
        rw [hrec] at h
        simp only [Option.some.injEq, Prod.mk.injEq] at h
        obtain ⟨hf, hl'⟩ := h
        obtain ⟨l₁, f₀, l₂, he, hnone, hp₀, hfe, hre⟩ := ih (hf ▸ hrec)
        refine ⟨a :: l₁, f₀, l₂, by rw [he]; rfl, ?_, hp₀, hfe, ?_⟩
        · intro x hx
          rcases List.mem_cons.1 hx with h | h
          · subst h; exact Bool.not_eq_true _ ▸ hpa
          · exact hnone x h
        · rw [← hl', hre]; rfl

/-- A matching row that is unique for the predicate is the one
    `updateFirst` rewrites; the rest of the table is untouched. -/
theorem updateFirst_of_mem {p : Form → Bool} {upd : Form → Form} {l : List Form}
    {f : Form} (hmem : f ∈ l) (hp : p f = true)
    (huniq : ∀ g ∈ l, p g = true → g = f) :
    ∃ l₁ l₂, l = l₁ ++ f :: l₂ ∧
      updateFirst p upd l = some (upd f, l₁ ++ upd f :: l₂) := by
  induction l with
  | nil => cases hmem
  | cons a rest ih =>
    by_cases ha : p a = true
    · have haf : a = f := huniq a (List.mem_cons_self _ _) ha
      subst haf
      exact ⟨[], rest, rfl, by rw [updateFirst, if_pos ha]; rfl⟩
    · have haf : a ≠ f := fun he => ha (he ▸ hp)
      have hmem' : f ∈ rest := by
        rcases List.mem_cons.1 hmem with h | h
        · exact absurd h.symm haf
        · exact h
      obtain ⟨l₁, l₂, he, hupd⟩ :=
        ih hmem' (fun g hg hpg => huniq g (List.mem_cons_of_mem _ hg) hpg)
      refine ⟨a :: l₁, l₂, by rw [he]; rfl, ?_⟩
      rw [updateFirst, if_neg ha, hupd]; rfl

/-- Rewriting a table already split around its first matching row. -/
theorem updateFirst_append {p : Form → Bool} {upd : Form → Form} {l₁ l₂ : List Form}
    {g : Form} (hnone : ∀ x ∈ l₁, p x = false) (hg : p g = true) :
    updateFirst p upd (l₁ ++ g :: l₂) = some (upd g, l₁ ++ upd g :: l₂) := by
  induction l₁ with
  | nil =>
    rw [List.nil_append, updateFirst, if_pos hg, List.nil_append]
  | cons a rest ih =>
    have ha : p a = false := hnone a (List.mem_cons_self a rest)
    rw [List.cons_append, updateFirst, if_neg (by simp [ha]),
        ih (fun x hx => hnone x (List.mem_cons_of_mem a hx))]
    rfl

/-- Every operation leaves the form table untouched, prepends one fresh
    row, or rewrites a single row with an update that keeps id and
    userId, never lowers a counter, and never clears the published
    flag. -/
theorem runOp_forms_shape (user : Option UserId) (op : Op) (st : Store) :
    (runOp user op st).forms = st.forms ∨
    (∃ g, (runOp user op st).forms = g :: st.forms ∧ g.id = st.nextId) ∨
    (∃ (p : Form → Bool) (upd : Form → Form) (g : Form) (l' : List Form),
      updateFirst p upd st.forms = some (g, l') ∧ (runOp user op st).forms = l' ∧
      (∀ x, (upd x).id = x.id ∧ (upd x).userId = x.userId ∧
        x.visits ≤ (upd x).visits ∧ x.submissions ≤ (upd x).submissions ∧
        (x.published = true → (upd x).published = true))) := by
  cases op with
  | getFormStats => exact .inl rfl
  | getForm => exact .inl rfl
  | getFormById i => exact .inl rfl
  | getFormWithSubmissions i => exact .inl rfl
  | createForm d =>
    by_cases hv : formSchema d = true
    · cases user with
      | none => exact .inl (by simp [runOp, CreateForm, hv])
      | some uid =>
        exact .inr (.inl ⟨newForm d uid st, by simp [runOp, CreateForm, hv], rfl⟩)
    · have hv' : formSchema d = false := by simpa using hv
      exact .inl (by simp [runOp, CreateForm, hv'])
  | updateFormContent i c =>
    cases user with
    | none => exact .inl rfl
    | some uid =>
      cases hrec : updateFirst (fun g => g.userId == uid && g.id == i)
          (fun g => { g with content := c }) st.forms with
      | none => exact .inl (by simp [runOp, UpdateFormContent, hrec])
      | some pr =>
        obtain ⟨g, l'⟩ := pr
        exact .inr (.inr ⟨_, _, g, l', hrec,
          by simp [runOp, UpdateFormContent, hrec],
          fun x => ⟨rfl, rfl, le_refl _, le_refl _, fun h => h⟩⟩)
  | publishForm i =>
    cases user with
    | none => exact .inl rfl
    | some uid =>
      cases hrec : updateFirst (fun g => g.userId == uid && g.id == i)
          (fun g => { g with published := true }) st.forms with
      | none => exact .inl (by simp [runOp, PublishForm, hrec])
      | some pr =>
        obtain ⟨g, l'⟩ := pr
        exact .inr (.inr ⟨_, _, g, l', hrec,
          by simp [runOp, PublishForm, hrec],
          fun x => ⟨rfl, rfl, le_refl _, le_refl _, fun _ => rfl⟩⟩)
  | getFormContentByUrl u =>
    cases hrec : updateFirst (fun g => g.shareURL == u)
        (fun g => { g with visits := g.visits + 1 }) st.forms with
    | none => exact .inl (by simp [runOp, GetFormContentByUrl, hrec])
    | some pr =>
      obtain ⟨g, l'⟩ := pr
      exact .inr (.inr ⟨_, _, g, l', hrec,
        by simp [runOp, GetFormContentByUrl, hrec],
        fun x => ⟨rfl, rfl, Nat.le_succ _, le_refl _, fun h => h⟩⟩)
  | submitForm u c =>
    cases hrec : updateFirst (fun g => g.shareURL == u && g.published)
        (fun g => { g with submissions := g.submissions + 1 }) st.forms with
    | none => exact .inl (by simp [runOp, SubmitForm, hrec])
    | some pr =>
      obtain ⟨g, l'⟩ := pr
      exact .inr (.inr ⟨_, _, g, l', hrec,
        by simp [runOp, SubmitForm, hrec],
        fun x => ⟨rfl, rfl, le_refl _, Nat.le_succ _, fun h => h⟩⟩)

/-! ### The claims -/

/-- Claim C10: in `CreateForm`, schema validation runs before identity
    resolution: an input whose name is shorter than 4 characters draws the
    validation error for every caller — the unauthenticated one included —
    never the auth error. -/
theorem createForm_validates_before_auth (data : FormSchemaType)
    (h : data.name.length < 4) (user : Option UserId) (st : Store) :
    CreateForm data user st = .error .validation := by
  have hv : formSchema data = false := by
    simp only [formSchema, decide_eq_false_iff_not, not_le]
    exact h
  simp [CreateForm, hv]

/-- Claim C10 witness: a three-character name is rejected with the
    validation error even with no user resolved. -/
theorem createForm_validates_before_auth_witness :
    CreateForm ⟨"abc", none⟩ none wStore = .error .validation :=
  createForm_validates_before_auth ⟨"abc", none⟩ (by decide) none wStore

/-- Claim C7: every owner-scoped operation — CreateForm on valid input,
    GetForm, GetFormById, UpdateFormContent, PublishForm,
    GetFormWithSubmissions, GetFormStats — fails with the auth error and
    leaves the store unchanged when no current user resolves. -/
theorem ownerScoped_authError (st : Store) (data : FormSchemaType)
    (hvalid : 4 ≤ data.name.length) (id : Nat) (content : String) :
    CreateForm data none st = .error .userNotFound ∧
    GetForm none st = .error .userNotFound ∧
    GetFormById id none st = .error .userNotFound ∧
    UpdateFormContent id content none st = .error .userNotFound ∧
    PublishForm id none st = .error .userNotFound ∧
    GetFormWithSubmissions id none st = .error .userNotFound ∧
    GetFormStats none st = .error .userNotFound ∧
    runOp none (.createForm data) st = st ∧
    runOp none (.updateFormContent id content) st = st ∧
    runOp none (.publishForm id) st = st := by
  have hv : formSchema data = true := by
    simp only [formSchema, decide_eq_true_eq]
    exact hvalid
  have hc : CreateForm data none st = .error .userNotFound := by
    simp [CreateForm, hv]
  exact ⟨hc, rfl, rfl, rfl, rfl, rfl, rfl, by simp [runOp, hc], rfl, rfl⟩

/-- Claim C7 witness: the operations rejected at a concrete store with no
    resolved user. -/
theorem ownerScoped_authError_witness :
    CreateForm ⟨"Survey", none⟩ none wStore = .error .userNotFound :=
  (ownerScoped_authError wStore ⟨"Survey", none⟩ (by decide) 1 "c").1

/-- Claim C4: GetFormStats sums visits and submissions over the forms
    owned by the current user; submissionRate is submissions/visits x 100
    when visits > 0 and 0 when visits = 0; bounceRate is
    100 - submissionRate; hence submissionRate + bounceRate = 100 in every
    case, and bounceRate = 100 when visits = 0. -/
theorem getFormStats_spec (uid : UserId) (st : Store) :
    ∃ v sub rate bounce,
      GetFormStats (some uid) st = .ok ⟨v, sub, rate, bounce⟩ ∧
      v = ((st.forms.filter (fun f => f.userId == uid)).map Form.visits).sum ∧
      sub = ((st.forms.filter (fun f => f.userId == uid)).map Form.submissions).sum ∧
      rate = (if v > 0 then ((sub : Rat) / (v : Rat)) * 100 else 0) ∧
      bounce = 100 - rate ∧
      rate + bounce = 100 ∧
      (v = 0 → bounce = 100) := by
  refine ⟨_, _, _, _, rfl, rfl, rfl, rfl, rfl, by ring, fun h => ?_⟩
  rw [h]
  simp

/-- Claim C5: CreateForm on a name shorter than 4 characters fails with
    the validation error and writes nothing, for every caller; on valid
    input from an authenticated user it inserts exactly one new form owned
    by that user at the head of the table and returns its fresh integer
    id. -/
theorem createForm_spec (data : FormSchemaType) (uid : UserId) (st : Store) :
    (data.name.length < 4 →
      (∀ user, CreateForm data user st = .error .validation) ∧
      (∀ user, runOp user (.createForm data) st = st)) ∧
    (4 ≤ data.name.length →
      ∃ f : Form, f.userId = uid ∧ f.id = st.nextId ∧
        CreateForm data (some uid) st =
          .ok (f.id, { st with forms := f :: st.forms, nextId := st.nextId + 1 })) := by
  constructor
  · intro h
    have hv : formSchema data = false := by
      simp only [formSchema, decide_eq_false_iff_not, not_le]
      exact h
    constructor
    · intro user; simp [CreateForm, hv]
    · intro user; simp [runOp, CreateForm, hv]
  · intro h
    have hv : formSchema data = true := by
      simp only [formSchema, decide_eq_true_eq]
      exact h
    exact ⟨newForm data uid st, rfl, rfl, by simp [CreateForm, hv]⟩

/-- Claim C1: owner-scoped read/update/publish never reach another user's
    form: given a valid id owned by a different user they yield a
    not-found outcome and leave the store unchanged. -/
theorem ownerScoped_isolation (st : Store) (hWF : st.WF) (uid : UserId)
    (f : Form) (hf : f ∈ st.forms) (hne : f.userId ≠ uid) (content : String) :
    GetFormById f.id (some uid) st = .ok none ∧
    UpdateFormContent f.id content (some uid) st = .error .notFound ∧
    PublishForm f.id (some uid) st = .error .notFound ∧
    runOp (some uid) (.updateFormContent f.id content) st = st ∧
    runOp (some uid) (.publishForm f.id) st = st := by
  have hnomatch : ∀ g ∈ st.forms, (g.userId == uid && g.id == f.id) = false := by
    intro g hg
    by_cases hid : g.id = f.id
    · have hgf : g = f := hWF.id_inj hg hf hid
      subst hgf
      simp [hne]
    · simp [hid]
  have hfind : st.forms.find? (fun g => g.userId == uid && g.id == f.id) = none := by
    rw [List.find?_eq_none]
    intro g hg
    simp [hnomatch g hg]
  have hupd := @updateFirst_eq_none (fun g => g.userId == uid && g.id == f.id)
      (fun g => { g with content := content }) st.forms hnomatch
  have hpub := @updateFirst_eq_none (fun g => g.userId == uid && g.id == f.id)
      (fun g => { g with published := true }) st.forms hnomatch
  refine ⟨?_, ?_, ?_, ?_, ?_⟩
  · simp [GetFormById, hfind]
  · simp [UpdateFormContent, hupd]
  · simp [PublishForm, hpub]
  · simp [runOp, UpdateFormContent, hupd]
  · simp [runOp, PublishForm, hpub]

/-- Claim C1 witness: user alice cannot reach bob's form by its id. -/
theorem ownerScoped_isolation_witness :
    GetFormById wDraft.id (some "alice") wStore = .ok none :=
  (ownerScoped_isolation wStore (by decide) "alice" wDraft (by decide) (by decide)
    "c").1

/-- Claim C9: UpdateFormContent on an id that does not identify a form of
    the caller is a not-found no-op; on the caller's own form it
    overwrites exactly that form's content with the given string. -/
theorem updateFormContent_spec (st : Store) (hWF : st.WF) (uid : UserId)
    (id : Nat) (content : String) :
    ((∀ g ∈ st.forms, ¬(g.userId = uid ∧ g.id = id)) →
      UpdateFormContent id content (some uid) st = .error .notFound ∧
      runOp (some uid) (.updateFormContent id content) st = st) ∧
    (∀ f ∈ st.forms, f.userId = uid → f.id = id →
      ∃ l₁ l₂, st.forms = l₁ ++ f :: l₂ ∧
        UpdateFormContent id content (some uid) st =
          .ok ({ f with content := content },
               { st with forms := l₁ ++ { f with content := content } :: l₂ })) := by
  constructor
  · intro hno
    have hnomatch : ∀ g ∈ st.forms, (g.userId == uid && g.id == id) = false := by
      intro g hg
      by_cases h1 : g.userId = uid
      · by_cases h2 : g.id = id
        · exact absurd ⟨h1, h2⟩ (hno g hg)
        · simp [h2]
      · simp [h1]
    have hupd := @updateFirst_eq_none (fun g => g.userId == uid && g.id == id)
        (fun g => { g with content := content }) st.forms hnomatch
    exact ⟨by simp [UpdateFormContent, hupd],
           by simp [runOp, UpdateFormContent, hupd]⟩
  · intro f hf h1 h2
    have hp : (f.userId == uid && f.id == id) = true := by simp [h1, h2]
    have huniq : ∀ g ∈ st.forms, (g.userId == uid && g.id == id) = true → g = f := by
      intro g hg hgp
      simp only [Bool.and_eq_true, beq_iff_eq] at hgp
      exact hWF.id_inj hg hf (hgp.2.trans h2.symm)
    obtain ⟨l₁, l₂, hsplit, hupd⟩ :=
      @updateFirst_of_mem (fun g => g.userId == uid && g.id == id)
        (fun g => { g with content := content }) st.forms f hf hp huniq
    exact ⟨l₁, l₂, hsplit, by simp [UpdateFormContent, hupd]⟩

/-- Claim C9 witness: alice overwrites the content of her own form. -/
theorem updateFormContent_spec_witness :
    ∃ l₁ l₂, wStore.forms = l₁ ++ wForm :: l₂ ∧
      UpdateFormContent 1 "new" (some "alice") wStore =
        .ok ({ wForm with content := "new" },
             { wStore with forms := l₁ ++ { wForm with content := "new" } :: l₂ }) :=
  (updateFormContent_spec wStore (by decide) "alice" 1 "new").2 wForm
    (by decide) rfl rfl

/-- Claim C3: GetFormContentByUrl on a shareURL held by some stored form
    increments exactly that form's visits by 1 and returns its content,
    with no published check; on a shareURL held by no form it is a
    not-found outcome and no counter changes. -/
theorem getFormContentByUrl_spec (st : Store) (hWF : st.WF) (url : String) :
    (∀ f ∈ st.forms, f.shareURL = url →
      ∃ l₁ l₂, st.forms = l₁ ++ f :: l₂ ∧
        GetFormContentByUrl url st =
          .ok (f.content,
               { st with forms := l₁ ++ { f with visits := f.visits + 1 } :: l₂ })) ∧
    ((∀ f ∈ st.forms, f.shareURL ≠ url) →
      GetFormContentByUrl url st = .error .notFound ∧
      runOp none (.getFormContentByUrl url) st = st) := by
  constructor
  · intro f hf hurl
    have hp : (f.shareURL == url) = true := by simp [hurl]
    have huniq : ∀ g ∈ st.forms, (g.shareURL == url) = true → g = f := by
      intro g hg hgp
      have hgu : g.shareURL = url := by simpa using hgp
      exact hWF.shareURL_inj hg hf (hgu.trans hurl.symm)
    obtain ⟨l₁, l₂, hsplit, hupd⟩ :=
      @updateFirst_of_mem (fun g => g.shareURL == url)
        (fun g => { g with visits := g.visits + 1 }) st.forms f hf hp huniq
    exact ⟨l₁, l₂, hsplit, by simp [GetFormContentByUrl, hupd]⟩
  · intro hno
    have hnomatch : ∀ g ∈ st.forms, (g.shareURL == url) = false := by
      intro g hg; simp [hno g hg]
    have hupd := @updateFirst_eq_none (fun g => g.shareURL == url)
        (fun g => { g with visits := g.visits + 1 }) st.forms hnomatch
    exact ⟨by simp [GetFormContentByUrl, hupd],
           by simp [runOp, GetFormContentByUrl, hupd]⟩

/-- Claim C3 witness: fetching bob's unpublished draft by its shareURL
    still bumps its visits and returns its content. -/
theorem getFormContentByUrl_spec_witness :
    ∃ l₁ l₂, wStore.forms = l₁ ++ wDraft :: l₂ ∧
      GetFormContentByUrl "share-2" wStore =
        .ok (wDraft.content,
             { wStore with
                forms := l₁ ++ { wDraft with visits := wDraft.visits + 1 } :: l₂ }) :=
  (getFormContentByUrl_spec wStore (by decide) "share-2").1 wDraft (by decide) rfl

/-- Claim C2: SubmitForm on the shareURL of a published form increments
    exactly that form's submissions by 1 and prepends exactly one linked
    FromSubmission row carrying the given content; on a shareURL whose
    form is unpublished (or held by no form) it is rejected, creating no
    row and changing no counter. -/
theorem submitForm_spec (st : Store) (hWF : st.WF) (url content : String) :
    (∀ f ∈ st.forms, f.shareURL = url → f.published = true →
      ∃ l₁ l₂, st.forms = l₁ ++ f :: l₂ ∧
        SubmitForm url content st =
          .ok ({ f with submissions := f.submissions + 1 },
               { st with
                  forms := l₁ ++ { f with submissions := f.submissions + 1 } :: l₂,
                  fromSubmissions :=
                    { id := st.nextSubId, formId := f.id, content := content,
                      createdAt := st.nextSubId } :: st.fromSubmissions,
                  nextSubId := st.nextSubId + 1 })) ∧
    ((∀ f ∈ st.forms, f.shareURL = url → f.published = false) →
      SubmitForm url content st = .error .notFound ∧
      runOp none (.submitForm url content) st = st) := by
  constructor
  · intro f hf hurl hpub
    have hp : (f.shareURL == url && f.published) = true := by simp [hurl, hpub]
    have huniq : ∀ g ∈ st.forms, (g.shareURL == url && g.published) = true → g = f := by
      intro g hg hgp
      simp only [Bool.and_eq_true, beq_iff_eq] at hgp
      exact hWF.shareURL_inj hg hf (hgp.1.trans hurl.symm)
    obtain ⟨l₁, l₂, hsplit, hupd⟩ :=
      @updateFirst_of_mem (fun g => g.shareURL == url && g.published)
        (fun g => { g with submissions := g.submissions + 1 }) st.forms f hf hp huniq
    exact ⟨l₁, l₂, hsplit, by simp [SubmitForm, hupd]⟩
  · intro hno
    have hnomatch : ∀ g ∈ st.forms, (g.shareURL == url && g.published) = false := by
      intro g hg
      by_cases hu : g.shareURL = url
      · simp [hno g hg hu]
      · simp [hu]
    have hupd := @updateFirst_eq_none (fun g => g.shareURL == url && g.published)
        (fun g => { g with submissions := g.submissions + 1 }) st.forms hnomatch
    exact ⟨by simp [SubmitForm, hupd], by simp [runOp, SubmitForm, hupd]⟩

/-- Claim C2 witness: a submission against alice's published form lands
    as one new linked row and one counter bump. -/
theorem submitForm_spec_witness :
    ∃ l₁ l₂, wStore.forms = l₁ ++ wForm :: l₂ ∧
      SubmitForm "share-1" "ans" wStore =
        .ok ({ wForm with submissions := wForm.submissions + 1 },
             { wStore with
                forms := l₁ ++ { wForm with submissions := wForm.submissions + 1 } :: l₂,
                fromSubmissions :=
                  { id := wStore.nextSubId, formId := wForm.id, content := "ans",
                    createdAt := wStore.nextSubId } :: wStore.fromSubmissions,
                nextSubId := wStore.nextSubId + 1 }) :=
  (submitForm_spec wStore (by decide) "share-1" "ans").1 wForm (by decide) rfl rfl

/-- Claim C8: every operation of the service preserves each stored
    form's owner and never decreases its visits or submissions
    counters. -/
theorem form_invariants_preserved (user : Option UserId) (op : Op) (st : Store)
    (hWF : st.WF) (f f' : Form) (hf : f ∈ st.forms)
    (hf' : f' ∈ (runOp user op st).forms) (hid : f'.id = f.id) :
    f'.userId = f.userId ∧ f.visits ≤ f'.visits ∧ f.submissions ≤ f'.submissions := by
  rcases runOp_forms_shape user op st with hsh | ⟨g, hsh, hgid⟩ |
    ⟨p, upd, g, l', hrec, hsh, hprops⟩
  · rw [hsh] at hf'
    obtain rfl : f' = f := hWF.id_inj hf' hf hid
    exact ⟨rfl, le_refl _, le_refl _⟩
  · rw [hsh] at hf'
    rcases List.mem_cons.1 hf' with h | h
    · subst h
      have hlt : f.id < st.nextId := hWF.2 f hf
      rw [← hid, hgid] at hlt
      exact absurd hlt (lt_irrefl _)
    · obtain rfl : f' = f := hWF.id_inj h hf hid
      exact ⟨rfl, le_refl _, le_refl _⟩
  · rw [hsh] at hf'
    obtain ⟨l₁, f₀, l₂, hsplit, hnone, hp₀, hge, hl'⟩ := updateFirst_eq_some hrec
    subst hl'
    rcases List.mem_append.1 hf' with h | h
    · have hmem : f' ∈ st.forms := by
        rw [hsplit]; exact List.mem_append_left _ h
      obtain rfl : f' = f := hWF.id_inj hmem hf hid
      exact ⟨rfl, le_refl _, le_refl _⟩
    · rcases List.mem_cons.1 h with h | h
      · subst h
        have hid₀ : f₀.id = f.id := by rw [← (hprops f₀).1]; exact hid
        have hmem₀ : f₀ ∈ st.forms := by
          rw [hsplit]; exact List.mem_append_right _ (List.mem_cons_self _ _)
        obtain rfl : f₀ = f := hWF.id_inj hmem₀ hf hid₀
        exact ⟨(hprops f₀).2.1, (hprops f₀).2.2.1, (hprops f₀).2.2.2.1⟩
      · have hmem : f' ∈ st.forms := by
          rw [hsplit]; exact List.mem_append_right _ (List.mem_cons_of_mem _ h)
        obtain rfl : f' = f := hWF.id_inj hmem hf hid
        exact ⟨rfl, le_refl _, le_refl _⟩

/-- Claim C8 witness: after a public submission, alice's form keeps its
    owner and its counters have not decreased. -/
theorem form_invariants_preserved_witness :
    ({ wForm with submissions := wForm.submissions + 1 } : Form).userId =
      wForm.userId ∧
    wForm.visits ≤ ({ wForm with submissions := wForm.submissions + 1 } : Form).visits ∧
    wForm.submissions ≤
      ({ wForm with submissions := wForm.submissions + 1 } : Form).submissions :=
  form_invariants_preserved none (.submitForm "share-1" "x") wStore (by decide)
    wForm { wForm with submissions := wForm.submissions + 1 }
    (by decide) (by decide) (by decide)

/-- Claim C6: publishing is one-way and idempotent in effect: a
    successful PublishForm leaves the form published, and repeating the
    call on the resulting store returns the identical result; moreover no
    operation of the service ever turns a stored form's published flag
    from true back to false. -/
theorem publish_oneWay_idempotent (st : Store) (hWF : st.WF) :
    (∀ uid id f st', PublishForm id (some uid) st = .ok (f, st') →
      f.published = true ∧ PublishForm id (some uid) st' = .ok (f, st')) ∧
    (∀ user op f f', f ∈ st.forms → f.published = true →
      f' ∈ (runOp user op st).forms → f'.id = f.id → f'.published = true) := by
  constructor
  · intro uid id f st' h
    simp only [PublishForm] at h
    cases hrec : updateFirst (fun g => g.userId == uid && g.id == id)
        (fun g => { g with published := true }) st.forms with
    | none => rw [hrec] at h; exact absurd h (by simp)
    | some pr =>
      obtain ⟨g, l'⟩ := pr
      rw [hrec] at h
      simp only [Except.ok.injEq, Prod.mk.injEq] at h
      obtain ⟨rfl, rfl⟩ := h
      obtain ⟨l₁, f₀, l₂, hsplit, hnone, hp₀, hge, hl'⟩ := updateFirst_eq_some hrec
      subst hge hl'
      refine ⟨rfl, ?_⟩
      simp only [PublishForm]
      rw [@updateFirst_append (fun g => g.userId == uid && g.id == id)
            (fun g => { g with published := true }) l₁ l₂
            ({ f₀ with published := true }) hnone hp₀]
  · intro user op f f' hf hpub hf' hid
    rcases runOp_forms_shape user op st with hsh | ⟨g, hsh, hgid⟩ |
      ⟨p, upd, g, l', hrec, hsh, hprops⟩
    · rw [hsh] at hf'
      obtain rfl : f' = f := hWF.id_inj hf' hf hid
      exact hpub
    · rw [hsh] at hf'
      rcases List.mem_cons.1 hf' with h | h
      · subst h
        have hlt : f.id < st.nextId := hWF.2 f hf
        rw [← hid, hgid] at hlt
        exact absurd hlt (lt_irrefl _)
      · obtain rfl : f' = f := hWF.id_inj h hf hid
        exact hpub
    · rw [hsh] at hf'
      obtain ⟨l₁, f₀, l₂, hsplit, hnone, hp₀, hge, hl'⟩ := updateFirst_eq_some hrec
      subst hl'
      rcases List.mem_append.1 hf' with h | h
      · have hmem : f' ∈ st.forms := by
          rw [hsplit]; exact List.mem_append_left _ h
        obtain rfl : f' = f := hWF.id_inj hmem hf hid
        exact hpub
      · rcases List.mem_cons.1 h with h | h
        · subst h
          have hid₀ : f₀.id = f.id := by rw [← (hprops f₀).1]; exact hid
          have hmem₀ : f₀ ∈ st.forms := by
            rw [hsplit]; exact List.mem_append_right _ (List.mem_cons_self _ _)
          obtain rfl : f₀ = f := hWF.id_inj hmem₀ hf hid₀
          exact (hprops f₀).2.2.2.2 hpub
        · have hmem : f' ∈ st.forms := by
            rw [hsplit]; exact List.mem_append_right _ (List.mem_cons_of_mem _ h)
          obtain rfl : f' = f := hWF.id_inj hmem hf hid
          exact hpub

/-- Claim C6 witness: publishing bob's draft succeeds, marks it
    published, and repeating the call returns the identical result. -/
theorem publish_oneWay_idempotent_witness :
    ({ wDraft with published := true } : Form).published = true ∧
    PublishForm 2 (some "bob")
        { wStore with forms := [wForm, { wDraft with published := true }] } =
      .ok ({ wDraft with published := true },
           { wStore with forms := [wForm, { wDraft with published := true }] }) :=
  (publish_oneWay_idempotent wStore (by decide)).1 "bob" 2
    { wDraft with published := true }
    { wStore with forms := [wForm, { wDraft with published := true }] }
    rfl

end FormApp
